/-
Verification of the reduction-potential engine of the CO2/cost calculator
for energy-flexibility measures.

The Python source (auxiliary_calculation.py, calculate_reduction_potential.py,
read_and_write.py) works on pandas data frames of rational-valued quantities;
floats are modelled exactly as rationals (ℚ), Python's `%` on a positive float
divisor as `pmod`, Python's float floor-division `//` as `Rat.floor` of the
quotient, and Python's `int()` truncation toward zero as `pyInt`.  The one
runtime error reachable in the normalizer (ZeroDivisionError when the adapted
retrieval duration is 0) is modelled by `Option`.
-/
import Mathlib

namespace CO2

/-- Python `x % y` for a positive divisor `y`: the representative of `x`
modulo `y` lying in `[0, y)` (`x - y * floor (x / y)`). -/
def pmod (x y : ℚ) : ℚ := x - y * ⌊x / y⌋

/-- Python `int(x)`: truncation toward zero. -/
def pyInt (x : ℚ) : ℤ := if 0 ≤ x then ⌊x⌋ else ⌈x⌉

/-- A raw case of a flexibility measure as built by `add_row`
(auxiliary_calculation.py, lines 70-75): the four float fields may be NaN
(modelled as `none`), the retrieval frequency is an `int`. -/
structure RawRow where
  power : Option ℚ
  rd : Option ℚ    -- 'retrieval duration' [h]
  ad : Option ℚ    -- 'activation duration' [h]
  ct : Option ℚ    -- 'catch-up time' [h]
  rf : ℤ           -- 'retrieval frequency' [1/a]
  deriving DecidableEq

/-- A case of a flexibility measure after `fillna_dict` /
`check_and_adapt_dsm`: all fields are numbers (the retrieval frequency can
become a float after the 8760-capping, hence ℚ). -/
structure Row where
  power : ℚ
  rd : ℚ
  ad : ℚ
  ct : ℚ
  rf : ℚ
  deriving DecidableEq

/-- `fillna_dict` (auxiliary_calculation.py, lines 159-177): replace NaN
values by 0. -/
def fillna_row (raw : RawRow) : Row :=
  { power := raw.power.getD 0
    rd := raw.rd.getD 0
    ad := raw.ad.getD 0
    ct := raw.ct.getD 0
    rf := (raw.rf : ℚ) }

/-- The duration-adaptation step of `check_and_adapt_dsm`
(auxiliary_calculation.py, lines 118-137): returns the adapted
(retrieval duration, catch-up time, activation duration). -/
def adapt_durations (rd ct ad : ℚ) : ℚ × ℚ × ℚ :=
  if rd + ct + ad ≤ 1/4 then
    (1/4, 0, 0)
  else if pmod rd (1/4) + pmod ct (1/4) + pmod ad (1/4) ≠ 0 then
    ((if pmod rd (1/4) ≠ 0 then rd + (1/4 - pmod rd (1/4)) else rd),
     (if pmod ct (1/4) ≠ 0 then ct + (1/4 - pmod ct (1/4)) else ct),
     (if pmod ad (1/4) ≠ 0 then ad + (1/4 - pmod ad (1/4)) else ad))
  else
    (rd, ct, ad)

/-- The activation duration value the normalizer computes internally
(the variable `ad` of `check_and_adapt_dsm` after lines 122-137); it is used
in the recomputation of `duration` for the frequency cap but, because source
line 153 reads `row['activation duration']` without assigning to it, it is
never stored into the returned record. -/
def adapted_ad (raw : RawRow) : ℚ :=
  let row := fillna_row raw
  (adapt_durations row.rd row.ct row.ad).2.2

/-- `check_and_adapt_dsm` (auxiliary_calculation.py, lines 86-157).
`none` models the ZeroDivisionError Python raises at line 140 when the
adapted retrieval duration is 0.  Note the returned record keeps the
*unadapted* activation duration (line 153 of the source performs no
assignment). -/
def check_and_adapt_dsm (raw : RawRow) : Option Row :=
  let row := fillna_row raw
  let rd := (adapt_durations row.rd row.ct row.ad).1
  let ct := (adapt_durations row.rd row.ct row.ad).2.1
  let ad := (adapt_durations row.rd row.ct row.ad).2.2
  if rd = 0 then none
  else
    let power := row.power * row.rd / rd
    let duration := rd + ct + ad
    let rf := if duration * row.rf > 8760 then (⌊(8760 : ℚ) / duration⌋ : ℚ) else row.rf
    some { power := power, rd := rd, ad := row.ad, ct := ct, rf := rf }

example : check_and_adapt_dsm ⟨some 1, some (1/10), some (1/20), some (1/20), 1⟩
    = some ⟨2/5, 1/4, 1/20, 0, 1⟩ := by
  norm_num [check_and_adapt_dsm, adapt_durations, pmod, fillna_row]

example : check_and_adapt_dsm ⟨some 1, some (3/10), some (1/20), none, 100000⟩
    = some ⟨3/5, 1/2, 1/20, 0, 11680⟩ := by
  norm_num [check_and_adapt_dsm, adapt_durations, pmod, fillna_row]

/-! ## The reduction-potential pipeline (calculate_reduction_potential.py) -/

/-- One record of the quarter-hourly annual time series (`df_price_emf`):
an electricity price [EUR/MWh] and an emission factor [g CO2-eq/kWh]
(read_and_write.py, `read_price_and_emf`). -/
structure PE where
  price : ℚ
  emf : ℚ
  deriving DecidableEq

instance : Inhabited PE := ⟨⟨0, 0⟩⟩

/-- The `column` argument of `block_reduction`: which series the reduction is
computed over. -/
inductive Column where
  | price
  | emf
  deriving DecidableEq

/-- The value of the selected column in a series record. -/
def colVal (column : Column) (x : PE) : ℚ :=
  match column with
  | Column.price => x.price
  | Column.emf => x.emf

/-- Positional access `avg_price_emf[i]` into the pair returned by
`read_avg_price_and_emf`. -/
def tupGet (avg : ℚ × ℚ) (i : ℕ) : ℚ :=
  match i with
  | 0 => avg.1
  | _ + 1 => avg.2

/-- `read_avg_price_and_emf` (read_and_write.py, lines 167-199), with the CSV
extraction abstracted away: given the average price and the specific annual
emission value extracted for the target year, the function returns the pair
`(avg_price, specific_emission)` — price first (source line 199). -/
def read_avg_price_and_emf (avg_price specific_emission : ℚ) : ℚ × ℚ :=
  (avg_price, specific_emission)

/-- The label-based inclusive slice `df.loc[a:b]` of pandas for an integer
row index: all records with index `x` satisfying `a ≤ x ≤ b`.  An upper
bound beyond the end of the frame silently truncates at the last record. -/
def locSlice (df : List PE) (a : ℕ) (b : ℚ) : List PE :=
  (df.drop a).take ((⌊b⌋ + 1 - (a : ℤ)).toNat)

/-- `block_reduction` (calculate_reduction_potential.py, lines 411-472):
the CO2 or cost reduction of one retrieval cycle starting at quarter-hour
`row_name`.  `last_index = row_name + rd*4 - 1`; if it is `> len(df)` the
reduction is 0, otherwise the reduction is
`-(load_change * df.loc[row_name:last_index, column]).sum()
 + load_change * avg_price_emf[i] * (rd*4)`
where `i` is 0 for `price` and 1 for `emf`. -/
def block_reduction (row_name : ℕ) (column : Column) (df_price_emf : List PE)
    (load_change : ℚ) (avg_price_emf : ℚ × ℚ) (rd : ℚ) : ℚ :=
  let last_index : ℚ := row_name + rd * 4 - 1
  let i : ℕ := if column = Column.emf then 1 else 0
  if last_index > (df_price_emf.length : ℚ) then 0
  else
    (-1) * (((locSlice df_price_emf row_name last_index).map
              (fun x => load_change * colVal column x)).sum)
      + load_change * tupGet avg_price_emf i * (rd * 4)

/-- One case of a flexibility measure as consumed by the pipeline
(a row of `df_dsm`).  The retrieval frequency is the integer number of
invocations per year used by `head(k)`. -/
structure Measure where
  tp : String
  name : String
  scope : String
  maximization : String
  loadChange : String      -- 'load change'
  power : ℚ
  rd : ℚ                   -- 'retrieval duration'
  ad : ℚ                   -- 'activation duration'
  ct : ℚ                   -- 'catch-up time'
  rf : ℕ                   -- 'retrieval frequency'

/-- `calc_load_change` (lines 326-352): quarter-hourly load change in MWh,
`power/1000/4`, negated for 'load reduction'. -/
def calc_load_change (measure : Measure) : ℚ :=
  let load_change := measure.power / 1000 / 4
  if measure.loadChange = "load reduction" then load_change * (-1) else load_change

/-- `calc_rc_length` (lines 354-374): length of one full retrieval cycle. -/
def calc_rc_length (measure : Measure) : ℚ :=
  measure.rd + measure.ct + measure.ad

/-- One row of the per-start-quarter-hour reduction columns added by
`blocks_quarter_hour` (`emission_reduction`, `price_reduction`). -/
structure RP where
  emission_reduction : ℚ
  price_reduction : ℚ
  deriving DecidableEq

instance : Inhabited RP := ⟨⟨0, 0⟩⟩

/-- `blocks_quarter_hour` (lines 376-409): compute both reduction columns
for every quarter-hour of the year. -/
def blocks_quarter_hour (df_price_emf : List PE) (avg_price_emf : ℚ × ℚ)
    (load_change : ℚ) (rd : ℚ) : List RP :=
  (List.range df_price_emf.length).map (fun t =>
    ⟨block_reduction t Column.emf df_price_emf load_change avg_price_emf rd,
     block_reduction t Column.price df_price_emf load_change avg_price_emf rd⟩)

/-- One block of `df_blocks`: the best opportunity inside one
retrieval-cycle segment, per objective, with the paired value of the other
objective from the same quarter-hour. -/
structure Block where
  maxEmission : ℚ    -- 'max. emission'
  assCost : ℚ        -- 'ass. cost'
  maxCost : ℚ        -- 'max. cost'
  assEmission : ℚ    -- 'ass. emission'
  deriving DecidableEq

/-- One step of the running-maximum fold behind `bestBy`: keep the current
best unless the new element is strictly better (so the first occurrence of
the maximum wins, the semantics of pandas `idxmax`). -/
def bestStep (f : RP → ℚ) (acc : Option RP) (x : RP) : Option RP :=
  match acc with
  | none => some x
  | some y => if f y < f x then some x else some y

/-- The element of `l` with the maximal value of `f`, first occurrence
winning on ties (the semantics of pandas `idxmax`). -/
def bestBy (f : RP → ℚ) (l : List RP) : Option RP :=
  l.foldl (bestStep f) none

/-- Build one `Block` from one segment, as in `max_in_block` (lines 505-510):
`idxmax` of each reduction column, then the two column values at each of the
two argmax rows. -/
def mkBlock (seg : List RP) : Block :=
  match bestBy (fun p => p.emission_reduction) seg,
        bestBy (fun p => p.price_reduction) seg with
  | some pe, some pc =>
      ⟨pe.emission_reduction, pe.price_reduction, pc.price_reduction, pc.emission_reduction⟩
  | _, _ => ⟨0, 0, 0, 0⟩

/-- Consecutive non-overlapping segments of size `n` (the final one may be
shorter), mirroring the iteration `for index in range(0, len(df), block)`
with the inclusive slice `df.loc[index:(index+block-1)]`. -/
def chunkList : ℕ → List RP → List (List RP)
  | _, [] => []
  | 0, x :: xs => [x :: xs]
  | n + 1, x :: xs => ((x :: xs).take (n + 1)) :: chunkList (n + 1) ((x :: xs).drop (n + 1))
termination_by _ l => l.length
decreasing_by simp [List.length_drop]; omega

/-- `max_in_block` (lines 474-512): partition the reduction series into
blocks of `int(length*4)` quarter-hours and reduce each to its best
opportunity.  (For `block = 0` Python's `range` raises a ValueError; that
argument is unreachable because every caller passes a normalized cycle
length `≥ 0.25h`.  Negative steps yield no iterations.) -/
def max_in_block (df : List RP) (length : ℚ) : List Block :=
  let block : ℤ := pyInt (length * 4)
  if block ≤ 0 then []
  else (chunkList block.toNat df).map mkBlock

/-- `calc_blocks` (lines 277-323). -/
def calc_blocks (measure : Measure) (df_price_emf : List PE)
    (avg_price_emf : ℚ × ℚ) : List Block :=
  let load_change := calc_load_change measure
  let length := calc_rc_length measure
  let df_reductions := blocks_quarter_hour df_price_emf avg_price_emf load_change measure.rd
  max_in_block df_reductions length

/-- The fields of a measure actually read by `calc_annual_potential`: the
five identity columns and the retrieval frequency.  (The synthesized
combination case of `calc_measure_combo` is a dict carrying only these.) -/
structure MeasureKey where
  tp : String
  name : String
  scope : String
  maximization : String
  loadChange : String
  rf : ℕ

/-- Projection of a full measure onto the fields used by the aggregator. -/
def Measure.key (m : Measure) : MeasureKey :=
  ⟨m.tp, m.name, m.scope, m.maximization, m.loadChange, m.rf⟩

/-- One output row of `final_results`.  A pair is `none` exactly when the
corresponding objective was not requested (the source stores the string
sentinel `'NaN'` there rather than a number). -/
structure AnnualResult where
  tp : String
  name : String
  scope : String
  maximization : String
  loadChange : String
  emission : Option (ℚ × ℚ)   -- ('max. emission', 'ass. cost')
  cost : Option (ℚ × ℚ)       -- ('max. cost', 'ass. emission')

/-- A descending sort of the blocks by the key `f`, modelling
`sort_values(by=..., ascending=False)`.  (pandas' default quicksort fixes no
particular order among rows with equal keys; the model uses insertion sort,
one sorted permutation.) -/
def sortDescBy (f : Block → ℚ) (l : List Block) : List Block :=
  List.insertionSort (fun a b => f b ≤ f a) l

/-- `calc_annual_potential` (lines 514-566): per requested objective, sort
the blocks by the objective's maximum descending, keep the first
`retrieval frequency` rows, drop the rows with non-positive maximum and sum
both columns of the remaining rows. -/
def calc_annual_potential (measure : MeasureKey) (blocks : List Block)
    (max_co2 max_cost : Bool) : AnnualResult :=
  let reduction_emission : Option (ℚ × ℚ) :=
    if max_co2 then
      let sorted_by_emissions := sortDescBy (fun b => b.maxEmission) blocks
      let k_max_emissions := (sorted_by_emissions.take measure.rf).filter
        (fun b => decide (0 < b.maxEmission))
      some ((k_max_emissions.map (fun b => b.maxEmission)).sum,
            (k_max_emissions.map (fun b => b.assCost)).sum)
    else none
  let reduction_cost : Option (ℚ × ℚ) :=
    if max_cost then
      let sorted_by_cost := sortDescBy (fun b => b.maxCost) blocks
      let k_max_cost := (sorted_by_cost.take measure.rf).filter
        (fun b => decide (0 < b.maxCost))
      some ((k_max_cost.map (fun b => b.maxCost)).sum,
            (k_max_cost.map (fun b => b.assEmission)).sum)
    else none
  ⟨measure.tp, measure.name, measure.scope, measure.maximization,
   measure.loadChange, reduction_emission, reduction_cost⟩

/-- `calc_measure_individual` (lines 132-175). -/
def calc_measure_individual (measure : Measure) (df_price_emf : List PE)
    (avg_price_emf : ℚ × ℚ) (max_co2 max_cost : Bool) : AnnualResult :=
  let blocks := calc_blocks measure df_price_emf avg_price_emf
  calc_annual_potential measure.key blocks max_co2 max_cost

/-- The 4-way dominance choice of `calc_measure_combo` (lines 247-260) for
one shared block index. -/
def combo_block (block_lr block_li : Block) : Block :=
  if block_lr.maxEmission > block_li.maxEmission ∧ block_lr.maxCost > block_li.maxCost then
    block_lr
  else if block_li.maxEmission > block_lr.maxEmission ∧ block_li.maxCost > block_lr.maxCost then
    block_li
  else if block_lr.maxEmission > block_li.maxEmission ∧ block_li.maxCost > block_lr.maxCost then
    ⟨block_lr.maxEmission, block_lr.assCost, block_li.maxCost, block_li.assEmission⟩
  else
    ⟨block_li.maxEmission, block_li.assCost, block_lr.maxCost, block_lr.assEmission⟩

/-- `calc_measure_combo` (lines 177-274): append the two individual results
and, when the two full cycle lengths agree, a third result for the
synthesized combination case, whose dict carries the reduction case's
identity fields, `'combination'` as load change, and the reduction case's
retrieval frequency. -/
def calc_measure_combo (measure_lr measure_li : Measure) (df_price_emf : List PE)
    (avg_price_emf : ℚ × ℚ) (final_results : List AnnualResult)
    (max_co2 max_cost : Bool) : List AnnualResult :=
  let blocks_lr := calc_blocks measure_lr df_price_emf avg_price_emf
  let length_lr := calc_rc_length measure_lr
  let r1 := final_results ++ [calc_annual_potential measure_lr.key blocks_lr max_co2 max_cost]
  let blocks_li := calc_blocks measure_li df_price_emf avg_price_emf
  let length_li := calc_rc_length measure_li
  let r2 := r1 ++ [calc_annual_potential measure_li.key blocks_li max_co2 max_cost]
  if length_lr = length_li then
    let blocks_combo := List.zipWith combo_block blocks_lr blocks_li
    let measure_combo : MeasureKey :=
      ⟨measure_lr.tp, measure_lr.name, measure_lr.scope, measure_lr.maximization,
       "combination", measure_lr.rf⟩
    r2 ++ [calc_annual_potential measure_combo blocks_combo max_co2 max_cost]
  else r2

/-! ## Arithmetic helper lemmas -/

theorem pmod_nonneg (x y : ℚ) (hy : 0 < y) : 0 ≤ pmod x y := by
  rw [pmod, sub_nonneg]
  have h1 : (⌊x / y⌋ : ℚ) ≤ x / y := Int.floor_le _
  have h2 : y * (x / y) = x := by field_simp
  nlinarith

theorem pmod_lt (x y : ℚ) (hy : 0 < y) : pmod x y < y := by
  rw [pmod]
  have h1 : x / y < (⌊x / y⌋ : ℚ) + 1 := Int.lt_floor_add_one _
  have h2 : y * (x / y) = x := by field_simp
  nlinarith

theorem pmod_eq_zero_iff (x y : ℚ) : pmod x y = 0 ↔ x = y * (⌊x / y⌋ : ℤ) := by
  rw [pmod, sub_eq_zero]

/-- The rounding step performed for each duration field in the `elif` branch
of `check_and_adapt_dsm`: the result is a non-negative multiple of a quarter
hour that is at least the input. -/
theorem roundup_cases (x : ℚ) (hx : 0 ≤ x) :
    ∃ k : ℕ, (if pmod x (1/4) ≠ 0 then x + (1/4 - pmod x (1/4)) else x) = (k : ℚ) * (1/4) ∧
      x ≤ (k : ℚ) * (1/4) := by
  have hy : (0 : ℚ) < 1/4 := by norm_num
  have hfl : (0 : ℤ) ≤ ⌊x / (1/4)⌋ := Int.floor_nonneg.mpr (div_nonneg hx hy.le)
  by_cases h : pmod x (1/4) = 0
  · have hcast : ((⌊x / (1/4)⌋.toNat : ℕ) : ℚ) = (⌊x / (1/4)⌋ : ℚ) := by
      exact_mod_cast congrArg (fun z : ℤ => (z : ℚ)) (Int.toNat_of_nonneg hfl)
    have hx' := (pmod_eq_zero_iff x (1/4)).mp h
    refine ⟨⌊x / (1/4)⌋.toNat, ?_, ?_⟩
    · rw [if_neg (not_not.mpr h), hcast]
      push_cast at hx'
      linarith
    · rw [hcast]
      push_cast at hx'
      linarith
  · have hnn : (0 : ℤ) ≤ ⌊x / (1/4)⌋ + 1 := by omega
    have hcast : (((⌊x / (1/4)⌋ + 1).toNat : ℕ) : ℚ) = (⌊x / (1/4)⌋ : ℚ) + 1 := by
      exact_mod_cast congrArg (fun z : ℤ => (z : ℚ)) (Int.toNat_of_nonneg hnn)
    have hv : (((⌊x / (1/4)⌋ + 1).toNat : ℕ) : ℚ) * (1/4) = x + (1/4 - pmod x (1/4)) := by
      rw [hcast, pmod]
      ring
    refine ⟨(⌊x / (1/4)⌋ + 1).toNat, ?_, ?_⟩
    · rw [if_pos h, hv]
    · have h2 := pmod_lt x (1/4) hy
      linarith [hv]

/-- Shape of the three duration fields produced by `adapt_durations` on
non-negative inputs: the first two are non-negative multiples of a quarter
hour, the third is non-negative. -/
theorem adapt_durations_spec (rd ct ad : ℚ) (hrd : 0 ≤ rd) (hct : 0 ≤ ct) (had : 0 ≤ ad) :
    (∃ k : ℕ, (adapt_durations rd ct ad).1 = (k : ℚ) * (1/4)) ∧
    (∃ k : ℕ, (adapt_durations rd ct ad).2.1 = (k : ℚ) * (1/4)) ∧
    0 ≤ (adapt_durations rd ct ad).2.2 := by
  have hy : (0 : ℚ) < 1/4 := by norm_num
  unfold adapt_durations
  by_cases h1 : rd + ct + ad ≤ 1/4
  · rw [if_pos h1]
    exact ⟨⟨1, by norm_num⟩, ⟨0, by norm_num⟩, le_refl 0⟩
  · rw [if_neg h1]
    by_cases h2 : pmod rd (1/4) + pmod ct (1/4) + pmod ad (1/4) ≠ 0
    · rw [if_pos h2]
      obtain ⟨k1, hk1, -⟩ := roundup_cases rd hrd
      obtain ⟨k2, hk2, -⟩ := roundup_cases ct hct
      obtain ⟨k3, hk3, hk3'⟩ := roundup_cases ad had
      refine ⟨⟨k1, hk1⟩, ⟨k2, hk2⟩, ?_⟩
      show 0 ≤ (if pmod ad (1/4) ≠ 0 then ad + (1/4 - pmod ad (1/4)) else ad)
      rw [hk3]
      positivity
    · rw [if_neg h2]
      push_neg at h2
      have m1 := pmod_nonneg rd (1/4) hy
      have m2 := pmod_nonneg ct (1/4) hy
      have m3 := pmod_nonneg ad (1/4) hy
      have e1 : pmod rd (1/4) = 0 := by linarith
      have e2 : pmod ct (1/4) = 0 := by linarith
      have f1 : (0 : ℤ) ≤ ⌊rd / (1/4)⌋ := Int.floor_nonneg.mpr (div_nonneg hrd hy.le)
      have f2 : (0 : ℤ) ≤ ⌊ct / (1/4)⌋ := Int.floor_nonneg.mpr (div_nonneg hct hy.le)
      have c1 : ((⌊rd / (1/4)⌋.toNat : ℕ) : ℚ) = (⌊rd / (1/4)⌋ : ℚ) := by
        exact_mod_cast congrArg (fun z : ℤ => (z : ℚ)) (Int.toNat_of_nonneg f1)
      have c2 : ((⌊ct / (1/4)⌋.toNat : ℕ) : ℚ) = (⌊ct / (1/4)⌋ : ℚ) := by
        exact_mod_cast congrArg (fun z : ℤ => (z : ℚ)) (Int.toNat_of_nonneg f2)
      have g1 := (pmod_eq_zero_iff rd (1/4)).mp e1
      have g2 := (pmod_eq_zero_iff ct (1/4)).mp e2
      push_cast at g1 g2
      exact ⟨⟨⌊rd / (1/4)⌋.toNat, by rw [c1]; linarith⟩,
             ⟨⌊ct / (1/4)⌋.toNat, by rw [c2]; linarith⟩, had⟩

/-- Unfolding of a successful run of `check_and_adapt_dsm`: the adapted
retrieval duration is nonzero and the returned record has exactly the shape
built at source lines 139-157 (with the activation duration passed through
unadapted). -/
theorem check_result (raw : RawRow) (row : Row)
    (hres : check_and_adapt_dsm raw = some row) :
    (adapt_durations (fillna_row raw).rd (fillna_row raw).ct (fillna_row raw).ad).1 ≠ 0 ∧
    row = ⟨(fillna_row raw).power * (fillna_row raw).rd /
             (adapt_durations (fillna_row raw).rd (fillna_row raw).ct (fillna_row raw).ad).1,
           (adapt_durations (fillna_row raw).rd (fillna_row raw).ct (fillna_row raw).ad).1,
           (fillna_row raw).ad,
           (adapt_durations (fillna_row raw).rd (fillna_row raw).ct (fillna_row raw).ad).2.1,
           if ((adapt_durations (fillna_row raw).rd (fillna_row raw).ct (fillna_row raw).ad).1 +
               (adapt_durations (fillna_row raw).rd (fillna_row raw).ct (fillna_row raw).ad).2.1 +
               (adapt_durations (fillna_row raw).rd (fillna_row raw).ct (fillna_row raw).ad).2.2) *
                (fillna_row raw).rf > 8760
           then ((⌊(8760 : ℚ) /
               ((adapt_durations (fillna_row raw).rd (fillna_row raw).ct (fillna_row raw).ad).1 +
                (adapt_durations (fillna_row raw).rd (fillna_row raw).ct (fillna_row raw).ad).2.1 +
                (adapt_durations (fillna_row raw).rd (fillna_row raw).ct (fillna_row raw).ad).2.2)⌋ : ℤ) : ℚ)
           else (fillna_row raw).rf⟩ := by
  simp only [check_and_adapt_dsm] at hres
  split at hres
  · exact absurd hres (by simp)
  · rename_i hne
    refine ⟨hne, ?_⟩
    exact (Option.some_inj.mp hres).symm

/-! ## C1: the invariant claimed after normalization -/

/-- C1, counterexample: for the raw case
(power 1, retrieval duration 0.1h, activation duration 0.05h,
catch-up time 0.05h, retrieval frequency 35040) normalization returns
retrieval duration 0.25, catch-up time 0, activation duration 0.05 and
frequency 35040; the returned activation duration is not a multiple of
0.25h and the returned duration sum times the returned frequency is
10512 > 8760, so the claimed invariant fails. -/
theorem c1_counterexample :
    check_and_adapt_dsm ⟨some 1, some (1/10), some (1/20), some (1/20), 35040⟩
      = some ⟨2/5, 1/4, 1/20, 0, 35040⟩ ∧
    ¬ ((1/4 + 0 + 1/20 : ℚ) * 35040 ≤ 8760) ∧
    ¬ (∃ k : ℕ, (1/20 : ℚ) = (k : ℚ) * (1/4)) := by
  refine ⟨by norm_num [check_and_adapt_dsm, adapt_durations, pmod, fillna_row],
          by norm_num, ?_⟩
  rintro ⟨k, hk⟩
  rcases Nat.eq_zero_or_pos k with h | h
  · rw [h] at hk
    norm_num at hk
  · have : (1 : ℚ) ≤ (k : ℚ) := Nat.one_le_cast.mpr h
    linarith

/-- C1 (amended): for every raw case with non-negative power-of-NaN-filled
duration fields, a successful normalization returns a retrieval duration
that is a multiple of 0.25h and ≥ 0.25h, a catch-up time that is a
non-negative multiple of 0.25h, the *unadapted* activation duration
(NaN→0 input value, not necessarily grid-aligned), a duration sum ≥ 0.25h,
and the internally adapted duration sum (with the rounded activation value
actually used by the frequency check) times the returned frequency
is ≤ 8760. -/
theorem c1_normalization_invariant (raw : RawRow) (row : Row)
    (hrd : 0 ≤ (fillna_row raw).rd) (hct : 0 ≤ (fillna_row raw).ct)
    (had : 0 ≤ (fillna_row raw).ad)
    (hres : check_and_adapt_dsm raw = some row) :
    (∃ k : ℕ, row.rd = (k : ℚ) * (1/4)) ∧ (1/4 : ℚ) ≤ row.rd ∧
    (∃ k : ℕ, row.ct = (k : ℚ) * (1/4)) ∧ 0 ≤ row.ct ∧
    row.ad = (fillna_row raw).ad ∧
    (1/4 : ℚ) ≤ row.rd + row.ct + row.ad ∧
    (row.rd + row.ct + adapted_ad raw) * row.rf ≤ 8760 := by
  obtain ⟨hne, hrow⟩ := check_result raw row hres
  obtain ⟨⟨k1, hk1⟩, ⟨k2, hk2⟩, h3⟩ :=
    adapt_durations_spec (fillna_row raw).rd (fillna_row raw).ct (fillna_row raw).ad hrd hct had
  subst hrow
  have hk1pos : 1 ≤ k1 := by
    rcases Nat.eq_zero_or_pos k1 with h | h
    · rw [h] at hk1
      norm_num at hk1
      exact absurd hk1 hne
    · exact h
  have hk1cast : (1 : ℚ) ≤ (k1 : ℚ) := Nat.one_le_cast.mpr hk1pos
  have hrd14 : (1/4 : ℚ) ≤ (adapt_durations (fillna_row raw).rd (fillna_row raw).ct (fillna_row raw).ad).1 := by
    rw [hk1]
    linarith
  have hct0 : (0 : ℚ) ≤ (adapt_durations (fillna_row raw).rd (fillna_row raw).ct (fillna_row raw).ad).2.1 := by
    rw [hk2]
    positivity
  refine ⟨⟨k1, hk1⟩, hrd14, ⟨k2, hk2⟩, hct0, rfl, by linarith, ?_⟩
  have hadapt : adapted_ad raw = (adapt_durations (fillna_row raw).rd (fillna_row raw).ct (fillna_row raw).ad).2.2 := rfl
  show ((adapt_durations (fillna_row raw).rd (fillna_row raw).ct (fillna_row raw).ad).1 +
        (adapt_durations (fillna_row raw).rd (fillna_row raw).ct (fillna_row raw).ad).2.1 +
        adapted_ad raw) *
       (if ((adapt_durations (fillna_row raw).rd (fillna_row raw).ct (fillna_row raw).ad).1 +
            (adapt_durations (fillna_row raw).rd (fillna_row raw).ct (fillna_row raw).ad).2.1 +
            (adapt_durations (fillna_row raw).rd (fillna_row raw).ct (fillna_row raw).ad).2.2) *
             (fillna_row raw).rf > 8760
        then ((⌊(8760 : ℚ) /
            ((adapt_durations (fillna_row raw).rd (fillna_row raw).ct (fillna_row raw).ad).1 +
             (adapt_durations (fillna_row raw).rd (fillna_row raw).ct (fillna_row raw).ad).2.1 +
             (adapt_durations (fillna_row raw).rd (fillna_row raw).ct (fillna_row raw).ad).2.2)⌋ : ℤ) : ℚ)
        else (fillna_row raw).rf) ≤ 8760
  rw [hadapt]
  set D := (adapt_durations (fillna_row raw).rd (fillna_row raw).ct (fillna_row raw).ad).1 +
           (adapt_durations (fillna_row raw).rd (fillna_row raw).ct (fillna_row raw).ad).2.1 +
           (adapt_durations (fillna_row raw).rd (fillna_row raw).ct (fillna_row raw).ad).2.2 with hD
  have hDpos : (0 : ℚ) < D := by
    rw [hD]
    linarith
  by_cases hc : D * (fillna_row raw).rf > 8760
  · rw [if_pos hc]
    have hfl : ((⌊(8760 : ℚ) / D⌋ : ℤ) : ℚ) ≤ 8760 / D := Int.floor_le _
    calc D * ((⌊(8760 : ℚ) / D⌋ : ℤ) : ℚ) ≤ D * (8760 / D) :=
          mul_le_mul_of_nonneg_left hfl hDpos.le
      _ = 8760 := by field_simp
  · rw [if_neg hc]
    linarith [not_lt.mp hc]

/-- C1, witness for the amended invariant at the raw case
(power 1, retrieval duration 0.3h, activation duration 0.05h,
catch-up time NaN, retrieval frequency 100000). -/
theorem c1_normalization_invariant_witness :
    ((0 : ℚ) ≤ (fillna_row ⟨some 1, some (3/10), some (1/20), none, 100000⟩).rd ∧
     (0 : ℚ) ≤ (fillna_row ⟨some 1, some (3/10), some (1/20), none, 100000⟩).ct ∧
     (0 : ℚ) ≤ (fillna_row ⟨some 1, some (3/10), some (1/20), none, 100000⟩).ad ∧
     check_and_adapt_dsm ⟨some 1, some (3/10), some (1/20), none, 100000⟩
       = some ⟨3/5, 1/2, 1/20, 0, 11680⟩) ∧
    ((∃ k : ℕ, (Row.mk (3/5) (1/2) (1/20) 0 11680).rd = (k : ℚ) * (1/4)) ∧
     (1/4 : ℚ) ≤ (Row.mk (3/5) (1/2) (1/20) 0 11680).rd ∧
     (∃ k : ℕ, (Row.mk (3/5) (1/2) (1/20) 0 11680).ct = (k : ℚ) * (1/4)) ∧
     (0 : ℚ) ≤ (Row.mk (3/5) (1/2) (1/20) 0 11680).ct ∧
     (Row.mk (3/5) (1/2) (1/20) 0 11680).ad
       = (fillna_row ⟨some 1, some (3/10), some (1/20), none, 100000⟩).ad ∧
     (1/4 : ℚ) ≤ (Row.mk (3/5) (1/2) (1/20) 0 11680).rd +
       (Row.mk (3/5) (1/2) (1/20) 0 11680).ct + (Row.mk (3/5) (1/2) (1/20) 0 11680).ad ∧
     ((Row.mk (3/5) (1/2) (1/20) 0 11680).rd + (Row.mk (3/5) (1/2) (1/20) 0 11680).ct +
       adapted_ad ⟨some 1, some (3/10), some (1/20), none, 100000⟩) *
       (Row.mk (3/5) (1/2) (1/20) 0 11680).rf ≤ 8760) := by
  have h1 : (0 : ℚ) ≤ (fillna_row ⟨some 1, some (3/10), some (1/20), none, 100000⟩).rd := by
    norm_num [fillna_row]
  have h2 : (0 : ℚ) ≤ (fillna_row ⟨some 1, some (3/10), some (1/20), none, 100000⟩).ct := by
    norm_num [fillna_row]
  have h3 : (0 : ℚ) ≤ (fillna_row ⟨some 1, some (3/10), some (1/20), none, 100000⟩).ad := by
    norm_num [fillna_row]
  have h4 : check_and_adapt_dsm ⟨some 1, some (3/10), some (1/20), none, 100000⟩
      = some ⟨3/5, 1/2, 1/20, 0, 11680⟩ := by
    norm_num [check_and_adapt_dsm, adapt_durations, pmod, fillna_row]
  exact ⟨⟨h1, h2, h3, h4⟩, c1_normalization_invariant _ _ h1 h2 h3 h4⟩

/-! ## C6: normalization of a sub-quarter-hour cycle -/

/-- C6, counterexample: inputs (0.1, 0.05, 0.05) do *not* normalize to
(0.25, 0, 0) — the returned activation duration is 0.05, because source
line 153 (`row['activation duration']`) performs no assignment. -/
theorem c6_counterexample :
    check_and_adapt_dsm ⟨some 1, some (1/10), some (1/20), some (1/20), 1⟩
      = some ⟨2/5, 1/4, 1/20, 0, 1⟩ ∧ (1/20 : ℚ) ≠ 0 :=
  ⟨by norm_num [check_and_adapt_dsm, adapt_durations, pmod, fillna_row], by norm_num⟩

/-- C6 (amended): for every raw case whose NaN-filled total duration is
≤ 0.25h, normalization returns retrieval duration 0.25, catch-up time 0,
the *input* activation duration (NaN→0, not zeroed), power rescaled by
originalRetrievalDuration / 0.25, and the frequency capped at 35040 when
0.25 · frequency exceeds 8760. -/
theorem c6_short_cycle (raw : RawRow)
    (h : (fillna_row raw).rd + (fillna_row raw).ct + (fillna_row raw).ad ≤ 1/4) :
    check_and_adapt_dsm raw
      = some ⟨(fillna_row raw).power * (fillna_row raw).rd / (1/4), 1/4, (fillna_row raw).ad, 0,
              if (1/4 : ℚ) * (fillna_row raw).rf > 8760 then 35040 else (fillna_row raw).rf⟩ := by
  have ht : adapt_durations (fillna_row raw).rd (fillna_row raw).ct (fillna_row raw).ad
      = (1/4, 0, 0) := by
    unfold adapt_durations
    rw [if_pos h]
  simp only [check_and_adapt_dsm, ht]
  norm_num

/-- C6, witness for the amended statement at the raw case
(power 1, retrieval duration 0.1h, activation duration 0.05h,
catch-up time 0.05h, retrieval frequency 1): power is rescaled by
0.1/0.25 = 0.4 and the activation duration stays 0.05. -/
theorem c6_short_cycle_witness :
    ((fillna_row ⟨some 1, some (1/10), some (1/20), some (1/20), 1⟩).rd +
      (fillna_row ⟨some 1, some (1/10), some (1/20), some (1/20), 1⟩).ct +
      (fillna_row ⟨some 1, some (1/10), some (1/20), some (1/20), 1⟩).ad ≤ 1/4) ∧
    check_and_adapt_dsm ⟨some 1, some (1/10), some (1/20), some (1/20), 1⟩
      = some ⟨2/5, 1/4, 1/20, 0, 1⟩ := by
  have h : (fillna_row ⟨some 1, some (1/10), some (1/20), some (1/20), 1⟩).rd +
      (fillna_row ⟨some 1, some (1/10), some (1/20), some (1/20), 1⟩).ct +
      (fillna_row ⟨some 1, some (1/10), some (1/20), some (1/20), 1⟩).ad ≤ 1/4 := by
    norm_num [fillna_row]
  refine ⟨h, (c6_short_cycle _ h).trans ?_⟩
  norm_num [fillna_row]

/-! ## C9: the activation duration passes through unadapted -/

/-- C9 (confirmed): for every raw case with total duration > 0.25h, the
activation duration field of a successful normalization equals the input
activation duration with NaN replaced by 0 — unchanged even when off-grid —
and the rounded-up activation value enters only the recomputed cycle
duration used by the frequency cap. -/
theorem c9_activation_passthrough (raw : RawRow) (row : Row)
    (hdur : 1/4 < (fillna_row raw).rd + (fillna_row raw).ct + (fillna_row raw).ad)
    (hres : check_and_adapt_dsm raw = some row) :
    row.ad = raw.ad.getD 0 ∧
    row.rf = (if (row.rd + row.ct + adapted_ad raw) * (fillna_row raw).rf > 8760
              then ((⌊(8760 : ℚ) / (row.rd + row.ct + adapted_ad raw)⌋ : ℤ) : ℚ)
              else (fillna_row raw).rf) := by
  obtain ⟨hne, hrow⟩ := check_result raw row hres
  subst hrow
  exact ⟨rfl, rfl⟩

/-- C9, witness at the raw case (power 1, retrieval duration 0.5h,
activation duration 0.1h, catch-up time NaN, retrieval frequency 1). -/
theorem c9_activation_passthrough_witness :
    ((1/4 : ℚ) < (fillna_row ⟨some 1, some (1/2), some (1/10), none, 1⟩).rd +
      (fillna_row ⟨some 1, some (1/2), some (1/10), none, 1⟩).ct +
      (fillna_row ⟨some 1, some (1/2), some (1/10), none, 1⟩).ad ∧
     check_and_adapt_dsm ⟨some 1, some (1/2), some (1/10), none, 1⟩
       = some ⟨1, 1/2, 1/10, 0, 1⟩) ∧
    ((Row.mk 1 (1/2) (1/10) 0 1).ad = (Option.some (1/10 : ℚ)).getD 0 ∧
     (Row.mk 1 (1/2) (1/10) 0 1).rf
       = (if ((Row.mk 1 (1/2) (1/10) 0 1).rd + (Row.mk 1 (1/2) (1/10) 0 1).ct +
             adapted_ad ⟨some 1, some (1/2), some (1/10), none, 1⟩) *
             (fillna_row ⟨some 1, some (1/2), some (1/10), none, 1⟩).rf > 8760
          then ((⌊(8760 : ℚ) / ((Row.mk 1 (1/2) (1/10) 0 1).rd + (Row.mk 1 (1/2) (1/10) 0 1).ct +
             adapted_ad ⟨some 1, some (1/2), some (1/10), none, 1⟩)⌋ : ℤ) : ℚ)
          else (fillna_row ⟨some 1, some (1/2), some (1/10), none, 1⟩).rf)) := by
  have hd : (1/4 : ℚ) < (fillna_row ⟨some 1, some (1/2), some (1/10), none, 1⟩).rd +
      (fillna_row ⟨some 1, some (1/2), some (1/10), none, 1⟩).ct +
      (fillna_row ⟨some 1, some (1/2), some (1/10), none, 1⟩).ad := by
    norm_num [fillna_row]
  have hr : check_and_adapt_dsm ⟨some 1, some (1/2), some (1/10), none, 1⟩
      = some ⟨1, 1/2, 1/10, 0, 1⟩ := by
    norm_num [check_and_adapt_dsm, adapt_durations, pmod, fillna_row]
  exact ⟨⟨hd, hr⟩, c9_activation_passthrough _ _ hd hr⟩

/-! ## The window-reduction computation (C2, C3, C10) -/

/-- Sum of a mapped inclusive slice as a `Finset.Ico` sum over the original
indices. -/
theorem slice_map_sum (f : PE → ℚ) (l : List PE) (a w : ℕ) (h : a + w ≤ l.length) :
    (((l.drop a).take w).map f).sum = ∑ i ∈ Finset.Ico a (a + w), f (l.getD i default) := by
  induction w generalizing a with
  | zero => simp
  | succ n ih =>
      have ha : a < l.length := by omega
      rw [List.drop_eq_getElem_cons ha, List.take_succ_cons, List.map_cons, List.sum_cons]
      have hab : a < a + (n + 1) := by omega
      rw [Finset.sum_eq_sum_Ico_succ_bot hab]
      have hgd : l.getD a default = l[a] := List.getD_eq_getElem l default ha
      rw [hgd]
      have harith : a + (n + 1) = (a + 1) + n := by omega
      rw [harith]
      have h' : (a + 1) + n ≤ l.length := by omega
      rw [← ih (a + 1) h']

/-- In-range evaluation of `block_reduction`: when the window of `w = rd*4`
quarter-hours starting at `t` ends at or before the last valid index, the
reduction is the claimed window formula. -/
theorem block_reduction_eq (column : Column) (df : List PE) (lc : ℚ) (avg : ℚ × ℚ)
    (rd : ℚ) (t w : ℕ) (hw : rd * 4 = (w : ℚ)) (hw1 : 1 ≤ w) (hN : t + w ≤ df.length) :
    block_reduction t column df lc avg rd
      = -(∑ i ∈ Finset.Ico t (t + w), lc * colVal column (df.getD i default))
        + lc * tupGet avg (if column = Column.emf then 1 else 0) * (w : ℚ) := by
  unfold block_reduction
  rw [hw]
  have hguard : ¬ ((t : ℚ) + (w : ℚ) - 1 > (df.length : ℚ)) := by
    have : ((t + w : ℕ) : ℚ) ≤ ((df.length : ℕ) : ℚ) := by exact_mod_cast hN
    push_cast at this
    linarith
  rw [if_neg hguard]
  have hfloor : ⌊(t : ℚ) + (w : ℚ) - 1⌋ = (t : ℤ) + (w : ℤ) - 1 := by
    have : (t : ℚ) + (w : ℚ) - 1 = (((t : ℤ) + (w : ℤ) - 1 : ℤ) : ℚ) := by push_cast; ring
    rw [this, Int.floor_intCast]
  have hslice : locSlice df t ((t : ℚ) + (w : ℚ) - 1) = (df.drop t).take w := by
    unfold locSlice
    rw [hfloor]
    congr 1
    omega
  rw [hslice, slice_map_sum (fun x => lc * colVal column x) df t w hN]
  ring

/-- C2 (confirmed): for every series, averages pair, measure and start `t`
with the `w = retrievalDuration*4` window inside the series, the computed
reduction equals
`-Σ_{i=t}^{t+w-1} loadChangeMWh * series[i].obj + loadChangeMWh * avg * w`
where `loadChangeMWh = power/1000/4`, negated exactly for 'load reduction'. -/
theorem c2_window_formula (m : Measure) (df : List PE) (avg : ℚ × ℚ) (column : Column)
    (t w : ℕ) (hw : m.rd * 4 = (w : ℚ)) (hw1 : 1 ≤ w) (hN : t + w ≤ df.length) :
    block_reduction t column df (calc_load_change m) avg m.rd
      = -(∑ i ∈ Finset.Ico t (t + w), calc_load_change m * colVal column (df.getD i default))
        + calc_load_change m * tupGet avg (if column = Column.emf then 1 else 0) * (w : ℚ) ∧
    calc_load_change m
      = (if m.loadChange = "load reduction" then -(m.power / 1000 / 4) else m.power / 1000 / 4) := by
  refine ⟨block_reduction_eq column df (calc_load_change m) avg m.rd t w hw hw1 hN, ?_⟩
  unfold calc_load_change
  split
  · ring
  · rfl

/-- C2, witness: a 2-quarter-hour series, measure with power 4 kW
('load increase', retrieval duration 0.25h so `w = 1`), start `t = 0`; the
evaluated reduction for the price objective is
`-0.001*10 + 0.001*30*1 = 0.02`. -/
theorem c2_window_formula_witness :
    ((Measure.mk "T" "M" "potential" "power" "load increase" 4 (1/4) 0 0 2).rd * 4 = ((1 : ℕ) : ℚ) ∧
     1 ≤ 1 ∧ 0 + 1 ≤ [PE.mk 10 7, PE.mk 50 9].length) ∧
    (block_reduction 0 Column.price [PE.mk 10 7, PE.mk 50 9]
        (calc_load_change (Measure.mk "T" "M" "potential" "power" "load increase" 4 (1/4) 0 0 2))
        (30, 8) (1/4)
      = -(∑ i ∈ Finset.Ico 0 (0 + 1),
            calc_load_change (Measure.mk "T" "M" "potential" "power" "load increase" 4 (1/4) 0 0 2) *
              colVal Column.price ([PE.mk 10 7, PE.mk 50 9].getD i default))
        + calc_load_change (Measure.mk "T" "M" "potential" "power" "load increase" 4 (1/4) 0 0 2) *
            tupGet (30, 8) (if Column.price = Column.emf then 1 else 0) * ((1 : ℕ) : ℚ) ∧
     calc_load_change (Measure.mk "T" "M" "potential" "power" "load increase" 4 (1/4) 0 0 2)
      = (if "load increase" = "load reduction" then -((4 : ℚ) / 1000 / 4) else (4 : ℚ) / 1000 / 4)) ∧
    block_reduction 0 Column.price [PE.mk 10 7, PE.mk 50 9]
        (calc_load_change (Measure.mk "T" "M" "potential" "power" "load increase" 4 (1/4) 0 0 2))
        (30, 8) (1/4) = 1/50 := by
  have h1 : (Measure.mk "T" "M" "potential" "power" "load increase" 4 (1/4) 0 0 2).rd * 4
      = ((1 : ℕ) : ℚ) := by norm_num
  have h2 : 1 ≤ 1 := le_refl 1
  have h3 : 0 + 1 ≤ [PE.mk 10 7, PE.mk 50 9].length := by norm_num
  refine ⟨⟨h1, h2, h3⟩,
    c2_window_formula (Measure.mk "T" "M" "potential" "power" "load increase" 4 (1/4) 0 0 2)
      [PE.mk 10 7, PE.mk 50 9] (30, 8) Column.price 0 1 h1 h2 h3, ?_⟩
  simp +decide only [block_reduction, locSlice, colVal, tupGet, calc_load_change]
  norm_num [Int.toNat]

/-- C3 (code bug): at series length `N = 4` with window `w = 2` (retrieval
duration 0.5h) and start `t = 3`, the window end `t + w - 1 = 4` exceeds the
last valid index `N - 1 = 3`, so per the boundary policy the reduction
should be 0; the source's guard `last_index > len(df)` does not fire and the
pandas slice silently truncates to the single remaining record, yielding
`-0.001*10 + 0.001*30*2 = 0.05 ≠ 0` (the baseline term still counts the
full window). -/
theorem c3_year_end_window :
    block_reduction 3 Column.price [PE.mk 10 0, PE.mk 10 0, PE.mk 10 0, PE.mk 10 0]
        (1/1000) (30, 0) (1/2) = 1/20 ∧
    (1/20 : ℚ) ≠ 0 ∧ 3 + 2 - 1 > 4 - 1 := by
  refine ⟨?_, by norm_num, by norm_num⟩
  simp +decide only [block_reduction, locSlice, colVal, tupGet]
  norm_num [Int.toNat]

/-- C10 (confirmed): `block_reduction` takes the baseline from element 0 of
the averages pair for the price objective and element 1 for the emission
objective, matching `read_avg_price_and_emf`'s construction order
`(avg_price, specific_emission)`; each objective is invariant under changes
to the other objective's baseline. -/
theorem c10_baseline_pairing (p e p' e' : ℚ) (t : ℕ) (df : List PE) (lc rd : ℚ) :
    read_avg_price_and_emf p e = (p, e) ∧
    tupGet (read_avg_price_and_emf p e) 0 = p ∧
    tupGet (read_avg_price_and_emf p e) 1 = e ∧
    block_reduction t Column.price df lc (read_avg_price_and_emf p e) rd
      = block_reduction t Column.price df lc (read_avg_price_and_emf p e') rd ∧
    block_reduction t Column.emf df lc (read_avg_price_and_emf p e) rd
      = block_reduction t Column.emf df lc (read_avg_price_and_emf p' e) rd := by
  refine ⟨rfl, rfl, rfl, ?_, ?_⟩ <;>
    simp [block_reduction, read_avg_price_and_emf, tupGet]

/-! ## The block partition (C4) -/

theorem chunkList_flatten : ∀ (n : ℕ) (l : List RP), 1 ≤ n → (chunkList n l).flatten = l := by
  intro n l
  induction n, l using chunkList.induct with
  | case1 n => intro _; simp [chunkList]
  | case2 x xs => intro h; omega
  | case3 n x xs ih =>
      intro h
      rw [chunkList, List.flatten_cons, ih (by omega), List.take_append_drop]

theorem chunkList_ne_nil : ∀ (n : ℕ) (l : List RP) (seg : List RP),
    seg ∈ chunkList n l → seg ≠ [] := by
  intro n l
  induction n, l using chunkList.induct with
  | case1 n => intro seg h; simp [chunkList] at h
  | case2 x xs => intro seg h; simp [chunkList] at h; simp [h]
  | case3 n x xs ih =>
      intro seg h
      rw [chunkList] at h
      rcases List.mem_cons.mp h with h1 | h2
      · rw [h1, List.take_succ_cons]; simp
      · exact ih seg h2

theorem bestBy_go (f : RP → ℚ) (l : List RP) :
    ∀ q : RP, ∃ p, List.foldl (bestStep f) (some q) l = some p ∧
      (p ∈ l ∨ p = q) ∧ f q ≤ f p ∧ ∀ x ∈ l, f x ≤ f p := by
  induction l with
  | nil => exact fun q => ⟨q, rfl, Or.inr rfl, le_refl _, by simp⟩
  | cons a t ih =>
      intro q
      rw [List.foldl_cons]
      have hstep : bestStep f (some q) a = if f q < f a then some a else some q := rfl
      by_cases hq : f q < f a
      · rw [hstep, if_pos hq]
        obtain ⟨p, hp, hmem, hle, hall⟩ := ih a
        refine ⟨p, hp, ?_, by linarith, ?_⟩
        · rcases hmem with h | h
          · exact Or.inl (List.mem_cons_of_mem a h)
          · exact Or.inl (h ▸ List.mem_cons_self a t)
        · intro x hx
          rcases List.mem_cons.mp hx with h | h
          · rw [h]; exact hle
          · exact hall x h
      · rw [hstep, if_neg hq]
        obtain ⟨p, hp, hmem, hle, hall⟩ := ih q
        refine ⟨p, hp, ?_, hle, ?_⟩
        · rcases hmem with h | h
          · exact Or.inl (List.mem_cons_of_mem a h)
          · exact Or.inr h
        · intro x hx
          rcases List.mem_cons.mp hx with h | h
          · rw [h]; linarith [not_lt.mp hq]
          · exact hall x h

theorem bestBy_spec (f : RP → ℚ) (l : List RP) (hne : l ≠ []) :
    ∃ p, bestBy f l = some p ∧ p ∈ l ∧ ∀ x ∈ l, f x ≤ f p := by
  cases l with
  | nil => exact absurd rfl hne
  | cons a t =>
      obtain ⟨p, hp, hmem, hle, hall⟩ := bestBy_go f t a
      refine ⟨p, ?_, ?_, ?_⟩
      · unfold bestBy
        rw [List.foldl_cons]
        exact hp
      · rcases hmem with h | h
        · exact List.mem_cons_of_mem a h
        · exact h ▸ List.mem_cons_self a t
      · intro x hx
        rcases List.mem_cons.mp hx with h | h
        · rw [h]; exact hle
        · exact hall x h

theorem mkBlock_spec (seg : List RP) (hne : seg ≠ []) :
    (∀ p ∈ seg, p.emission_reduction ≤ (mkBlock seg).maxEmission) ∧
    (∃ p ∈ seg, p.emission_reduction = (mkBlock seg).maxEmission ∧
      p.price_reduction = (mkBlock seg).assCost) ∧
    (∀ p ∈ seg, p.price_reduction ≤ (mkBlock seg).maxCost) ∧
    (∃ p ∈ seg, p.price_reduction = (mkBlock seg).maxCost ∧
      p.emission_reduction = (mkBlock seg).assEmission) := by
  obtain ⟨pe, hpe, hpemem, hpeall⟩ := bestBy_spec (fun p => p.emission_reduction) seg hne
  obtain ⟨pc, hpc, hpcmem, hpcall⟩ := bestBy_spec (fun p => p.price_reduction) seg hne
  have hmk : mkBlock seg
      = ⟨pe.emission_reduction, pe.price_reduction, pc.price_reduction, pc.emission_reduction⟩ := by
    unfold mkBlock
    rw [hpe, hpc]
  rw [hmk]
  exact ⟨fun p hp => hpeall p hp, ⟨pe, hpemem, rfl, rfl⟩,
         fun p hp => hpcall p hp, ⟨pc, hpcmem, rfl, rfl⟩⟩

/-- C4 (confirmed): for every reduction series and positive block size, the
blocks partition the series into consecutive non-overlapping segments (the
final one possibly shorter); every produced Block has `maxEmission` equal to
the maximum `emission_reduction` of its segment (hence ≥ every value in it)
with `assCost` the `price_reduction` at an index attaining that maximum, and
symmetrically `maxCost`/`assEmission`. -/
theorem c4_block_partition (df : List RP) (length : ℚ)
    (hb : 1 ≤ pyInt (length * 4)) :
    (chunkList (pyInt (length * 4)).toNat df).flatten = df ∧
    max_in_block df length = (chunkList (pyInt (length * 4)).toNat df).map mkBlock ∧
    ∀ seg ∈ chunkList (pyInt (length * 4)).toNat df,
      mkBlock seg ∈ max_in_block df length ∧
      (∀ p ∈ seg, p.emission_reduction ≤ (mkBlock seg).maxEmission) ∧
      (∃ p ∈ seg, p.emission_reduction = (mkBlock seg).maxEmission ∧
        p.price_reduction = (mkBlock seg).assCost) ∧
      (∀ p ∈ seg, p.price_reduction ≤ (mkBlock seg).maxCost) ∧
      (∃ p ∈ seg, p.price_reduction = (mkBlock seg).maxCost ∧
        p.emission_reduction = (mkBlock seg).assEmission) := by
  have hmb : max_in_block df length = (chunkList (pyInt (length * 4)).toNat df).map mkBlock := by
    unfold max_in_block
    rw [if_neg (by omega)]
  refine ⟨chunkList_flatten _ _ (by omega), hmb, ?_⟩
  intro seg hseg
  obtain ⟨h1, h2, h3, h4⟩ := mkBlock_spec seg (chunkList_ne_nil _ _ seg hseg)
  exact ⟨hmb ▸ List.mem_map_of_mem mkBlock hseg, h1, h2, h3, h4⟩

/-- C4, witness at the 3-point series
[(1,2), (3,1), (0,5)] with cycle length 0.5h (block size 2): blocks are
[(3,1,2,1), (0,5,5,0)]. -/
theorem c4_block_partition_witness :
    (1 ≤ pyInt ((1/2 : ℚ) * 4) ∧
     max_in_block [RP.mk 1 2, RP.mk 3 1, RP.mk 0 5] (1/2)
       = [Block.mk 3 1 2 1, Block.mk 0 5 5 0]) ∧
    ((chunkList (pyInt ((1/2 : ℚ) * 4)).toNat [RP.mk 1 2, RP.mk 3 1, RP.mk 0 5]).flatten
       = [RP.mk 1 2, RP.mk 3 1, RP.mk 0 5] ∧
     max_in_block [RP.mk 1 2, RP.mk 3 1, RP.mk 0 5] (1/2)
       = (chunkList (pyInt ((1/2 : ℚ) * 4)).toNat [RP.mk 1 2, RP.mk 3 1, RP.mk 0 5]).map mkBlock ∧
     ∀ seg ∈ chunkList (pyInt ((1/2 : ℚ) * 4)).toNat [RP.mk 1 2, RP.mk 3 1, RP.mk 0 5],
       mkBlock seg ∈ max_in_block [RP.mk 1 2, RP.mk 3 1, RP.mk 0 5] (1/2) ∧
       (∀ p ∈ seg, p.emission_reduction ≤ (mkBlock seg).maxEmission) ∧
       (∃ p ∈ seg, p.emission_reduction = (mkBlock seg).maxEmission ∧
         p.price_reduction = (mkBlock seg).assCost) ∧
       (∀ p ∈ seg, p.price_reduction ≤ (mkBlock seg).maxCost) ∧
       (∃ p ∈ seg, p.price_reduction = (mkBlock seg).maxCost ∧
         p.emission_reduction = (mkBlock seg).assEmission)) := by
  have hb : 1 ≤ pyInt ((1/2 : ℚ) * 4) := by norm_num [pyInt]
  refine ⟨⟨hb, ?_⟩, c4_block_partition [RP.mk 1 2, RP.mk 3 1, RP.mk 0 5] (1/2) hb⟩
  have hp : pyInt ((1/2 : ℚ) * 4) = 2 := by norm_num [pyInt]
  simp only [max_in_block, hp]
  rw [show (2 : ℤ).toNat = 2 from rfl]
  norm_num [chunkList, mkBlock, bestBy, bestStep]

/-! ## The annual aggregation (C5) -/

instance instTotalDesc (f : Block → ℚ) : IsTotal Block (fun a b => f b ≤ f a) :=
  ⟨fun a b => le_total (f b) (f a)⟩

instance instTransDesc (f : Block → ℚ) : IsTrans Block (fun a b => f b ≤ f a) :=
  ⟨fun _ _ _ hab hbc => le_trans hbc hab⟩

theorem sortDescBy_sorted (f : Block → ℚ) (l : List Block) :
    List.Sorted (fun a b => f b ≤ f a) (sortDescBy f l) :=
  List.sorted_insertionSort _ _

theorem sortDescBy_perm (f : Block → ℚ) (l : List Block) :
    List.Perm (sortDescBy f l) l :=
  List.perm_insertionSort _ _

/-- On a descending-sorted list, taking the first `k` rows and then dropping
the non-positive ones selects the same rows as dropping the non-positive
ones first and then taking the first `k` (the positives form a prefix). -/
theorem take_filter_sorted (f : Block → ℚ) (k : ℕ) (l : List Block)
    (hs : List.Sorted (fun a b => f b ≤ f a) l) :
    (l.take k).filter (fun b => decide (0 < f b))
      = (l.filter (fun b => decide (0 < f b))).take k := by
  induction l generalizing k with
  | nil => simp
  | cons a t ih =>
      obtain ⟨ha, ht⟩ := List.sorted_cons.mp hs
      by_cases hpa : 0 < f a
      · cases k with
        | zero => simp
        | succ k' =>
            rw [List.take_succ_cons, List.filter_cons, List.filter_cons,
                if_pos (by simpa using hpa), if_pos (by simpa using hpa),
                List.take_succ_cons, ih k' ht]
      · have hall : ∀ x ∈ t, ¬ (0 < f x) := by
          intro x hx hc
          exact hpa (lt_of_lt_of_le hc (ha x hx))
        have htake : ((a :: t).take k).filter (fun b => decide (0 < f b)) = [] := by
          apply List.filter_eq_nil_iff.mpr
          intro x hx
          rcases List.mem_cons.mp (List.mem_of_mem_take hx) with h | h
          · simpa [h] using hpa
          · simpa using hall x h
        have hcons : (a :: t).filter (fun b => decide (0 < f b)) = [] := by
          rw [List.filter_cons, if_neg (by simpa using hpa)]
          apply List.filter_eq_nil_iff.mpr
          intro x hx
          simpa using hall x hx
        rw [htake, hcons, List.take_nil]

/-- C5 (confirmed): per requested objective the aggregator reports the sums
of the objective's maxima and of the *paired* associated values over the
same selected rows — the first `retrievalFrequency` rows of the
descending-sorted block list after discarding non-positive maxima — and a
non-requested objective yields the 'not computed' sentinel (`none`), not 0.
The sort is a descending-ordered permutation of the blocks. -/
theorem c5_annual_potential (measure : MeasureKey) (blocks : List Block)
    (max_co2 max_cost : Bool) :
    calc_annual_potential measure blocks max_co2 max_cost
      = ⟨measure.tp, measure.name, measure.scope, measure.maximization, measure.loadChange,
         (if max_co2 then
            some (((((sortDescBy (fun b => b.maxEmission) blocks).filter
                       (fun b => decide (0 < b.maxEmission))).take measure.rf).map
                     (fun b => b.maxEmission)).sum,
                  ((((sortDescBy (fun b => b.maxEmission) blocks).filter
                       (fun b => decide (0 < b.maxEmission))).take measure.rf).map
                     (fun b => b.assCost)).sum)
          else none),
         (if max_cost then
            some (((((sortDescBy (fun b => b.maxCost) blocks).filter
                       (fun b => decide (0 < b.maxCost))).take measure.rf).map
                     (fun b => b.maxCost)).sum,
                  ((((sortDescBy (fun b => b.maxCost) blocks).filter
                       (fun b => decide (0 < b.maxCost))).take measure.rf).map
                     (fun b => b.assEmission)).sum)
          else none)⟩ ∧
    List.Perm (sortDescBy (fun b => b.maxEmission) blocks) blocks ∧
    List.Sorted (fun a b => b.maxEmission ≤ a.maxEmission)
      (sortDescBy (fun b => b.maxEmission) blocks) ∧
    List.Perm (sortDescBy (fun b => b.maxCost) blocks) blocks ∧
    List.Sorted (fun a b => b.maxCost ≤ a.maxCost) (sortDescBy (fun b => b.maxCost) blocks) := by
  refine ⟨?_, sortDescBy_perm _ _, sortDescBy_sorted _ _, sortDescBy_perm _ _,
          sortDescBy_sorted _ _⟩
  have h1 := take_filter_sorted (fun b => b.maxEmission) measure.rf
    (sortDescBy (fun b => b.maxEmission) blocks)
    (sortDescBy_sorted (fun b => b.maxEmission) blocks)
  have h2 := take_filter_sorted (fun b => b.maxCost) measure.rf
    (sortDescBy (fun b => b.maxCost) blocks)
    (sortDescBy_sorted (fun b => b.maxCost) blocks)
  simp only at h1 h2
  unfold calc_annual_potential
  simp only [h1, h2]

/-! ## The combination path (C8) -/

/-- C8 (confirmed): the combo path always appends the two individual
results; exactly when the two full retrieval-cycle lengths agree it appends
one more row, computed for the synthesized 'combination' case that carries
the reduction case's identity fields and the *reduction* case's retrieval
frequency over the dominance-combined blocks.  Hence 2 result rows for the
pair when the lengths differ, 3 when they agree. -/
theorem c8_combo_rows (measure_lr measure_li : Measure) (df : List PE) (avg : ℚ × ℚ)
    (final_results : List AnnualResult) (max_co2 max_cost : Bool) :
    calc_measure_combo measure_lr measure_li df avg final_results max_co2 max_cost
      = final_results
        ++ [calc_annual_potential measure_lr.key (calc_blocks measure_lr df avg) max_co2 max_cost,
            calc_annual_potential measure_li.key (calc_blocks measure_li df avg) max_co2 max_cost]
        ++ (if calc_rc_length measure_lr = calc_rc_length measure_li then
              [calc_annual_potential
                 ⟨measure_lr.tp, measure_lr.name, measure_lr.scope, measure_lr.maximization,
                  "combination", measure_lr.rf⟩
                 (List.zipWith combo_block (calc_blocks measure_lr df avg)
                   (calc_blocks measure_li df avg)) max_co2 max_cost]
            else []) ∧
    (calc_measure_combo measure_lr measure_li df avg final_results max_co2 max_cost).length
      = final_results.length
        + (if calc_rc_length measure_lr = calc_rc_length measure_li then 3 else 2) := by
  unfold calc_measure_combo
  by_cases h : calc_rc_length measure_lr = calc_rc_length measure_li
  · rw [if_pos h, if_pos h, if_pos h]
    constructor
    · simp [List.append_assoc]
    · simp [List.length_append]
  · rw [if_neg h, if_neg h, if_neg h]
    constructor
    · simp [List.append_assoc]
    · simp [List.length_append]

end CO2
